import Mathlib

set_option maxRecDepth 20000

/-! Shallow embedding of the ncb-tts-r2 Discord TTS bot.  Every definition
is translated from the Rust source file named in its doc comment.  Time
(`std::time::Instant`) is modelled as an explicit natural-number clock
passed to each operation that reads it; fallible operations return
`Except` or `Option`; a Rust panic is modelled as `Option.none`. -/

namespace NCB

/-- `CircuitBreakerState` from `src/utils.rs` lines 14-19. -/
inductive CircuitBreakerState where
  | Closed
  | Open
  | HalfOpen
deriving DecidableEq, Repr

/-- `CircuitBreaker` from `src/utils.rs` lines 22-29; `last_failure_time`
(an `Instant`) is kept as a `Nat` timestamp. -/
structure CircuitBreaker where
  state : CircuitBreakerState
  failure_count : Nat
  last_failure_time : Option Nat
  threshold : Nat
  timeout : Nat
deriving DecidableEq, Repr

/-- `CircuitBreaker::new` (`src/utils.rs` lines 44-50), with the `Default`
impl (lines 31-41) inlined for the fields `new` overrides. -/
def CircuitBreaker.new (threshold timeout : Nat) : CircuitBreaker :=
  { state := .Closed
    failure_count := 0
    last_failure_time := none
    threshold := threshold
    timeout := timeout }

/-- `CircuitBreaker::can_execute` (`src/utils.rs` lines 52-64);
`last_failure.elapsed() >= self.timeout` becomes `timeout ≤ now - lf`. -/
def CircuitBreaker.can_execute (cb : CircuitBreaker) (now : Nat) : Bool :=
  match cb.state with
  | .Closed => true
  | .Open =>
      match cb.last_failure_time with
      | some lf => decide (cb.timeout ≤ now - lf)
      | none => true
  | .HalfOpen => true

/-- `CircuitBreaker::on_success` (`src/utils.rs` lines 66-70). -/
def CircuitBreaker.on_success (cb : CircuitBreaker) : CircuitBreaker :=
  { cb with failure_count := 0, state := .Closed, last_failure_time := none }

/-- `CircuitBreaker::on_failure` (`src/utils.rs` lines 72-81); `now` is the
`Instant::now()` recorded as the failure time. -/
def CircuitBreaker.on_failure (cb : CircuitBreaker) (now : Nat) : CircuitBreaker :=
  let cb' := { cb with
    failure_count := cb.failure_count + 1
    last_failure_time := some now }
  if cb'.threshold ≤ cb'.failure_count then { cb' with state := .Open }
  else if cb'.state = .HalfOpen then { cb' with state := .Open }
  else cb'

/-- `CircuitBreaker::try_half_open` (`src/utils.rs` lines 83-91). -/
def CircuitBreaker.try_half_open (cb : CircuitBreaker) (now : Nat) : CircuitBreaker :=
  if cb.state = .Open then
    match cb.last_failure_time with
    | some lf => if cb.timeout ≤ now - lf then { cb with state := .HalfOpen } else cb
    | none => cb
  else cb

/-- Fold `on_failure` over a list of failure timestamps. -/
def CircuitBreaker.applyFailures (cb : CircuitBreaker) (ts : List Nat) : CircuitBreaker :=
  ts.foldl (fun c τ => c.on_failure τ) cb

/-- The retry loop of `retry_with_backoff` (`src/utils.rs` lines 125-171).
The operation is modelled as a function from the 1-based attempt number to
that invocation's result; the loop calls it once per iteration, so the
returned counter is exactly the number of invocations performed.  The
backoff delay is threaded in milliseconds
(`delay = min (delay * 2) 30000`); the sleep itself has no effect on the
result. -/
def retryLoop (op : Nat → Except E T) (max_attempts : Nat) (attempts : Nat)
    (delay : Nat) : Except E T × Nat :=
  let attempts' := attempts + 1
  match op attempts' with
  | .ok r => (.ok r, attempts')
  | .error e =>
      if max_attempts ≤ attempts' then (.error e, attempts')
      else retryLoop op max_attempts attempts' (min (delay * 2) 30000)
termination_by max_attempts - attempts
decreasing_by simp_wf; omega

/-- `retry_with_backoff` (`src/utils.rs` lines 125-171): `attempts`
starts at 0 and `delay` at `initial_delay`. -/
def retry_with_backoff (op : Nat → Except E T) (max_attempts : Nat)
    (initial_delay : Nat) : Except E T × Nat :=
  retryLoop op max_attempts 0 initial_delay

lemma CircuitBreaker.on_failure_count (cb : CircuitBreaker) (τ : Nat) :
    (cb.on_failure τ).failure_count = cb.failure_count + 1 := by
  unfold on_failure; dsimp only; split
  · rfl
  · split <;> rfl

lemma CircuitBreaker.on_failure_last (cb : CircuitBreaker) (τ : Nat) :
    (cb.on_failure τ).last_failure_time = some τ := by
  unfold on_failure; dsimp only; split
  · rfl
  · split <;> rfl

lemma CircuitBreaker.on_failure_threshold (cb : CircuitBreaker) (τ : Nat) :
    (cb.on_failure τ).threshold = cb.threshold := by
  unfold on_failure; dsimp only; split
  · rfl
  · split <;> rfl

lemma CircuitBreaker.on_failure_timeout (cb : CircuitBreaker) (τ : Nat) :
    (cb.on_failure τ).timeout = cb.timeout := by
  unfold on_failure; dsimp only; split
  · rfl
  · split <;> rfl

lemma CircuitBreaker.on_failure_state_closed (cb : CircuitBreaker) (τ : Nat)
    (hs : cb.state = .Closed) (hc : cb.failure_count + 1 < cb.threshold) :
    (cb.on_failure τ).state = .Closed := by
  unfold on_failure
  dsimp only
  rw [if_neg (by simp; omega), if_neg (by simp [hs])]
  exact hs

lemma CircuitBreaker.on_failure_state_open (cb : CircuitBreaker) (τ : Nat)
    (hc : cb.threshold ≤ cb.failure_count + 1) :
    (cb.on_failure τ).state = .Open := by
  unfold on_failure
  dsimp only
  rw [if_pos (by simpa using hc)]

lemma CircuitBreaker.applyFailures_nil (cb : CircuitBreaker) :
    cb.applyFailures [] = cb := rfl

lemma CircuitBreaker.applyFailures_cons (cb : CircuitBreaker) (τ : Nat) (ts : List Nat) :
    cb.applyFailures (τ :: ts) = (cb.on_failure τ).applyFailures ts := rfl

lemma CircuitBreaker.applyFailures_append (cb : CircuitBreaker) (ts₁ ts₂ : List Nat) :
    cb.applyFailures (ts₁ ++ ts₂) = (cb.applyFailures ts₁).applyFailures ts₂ := by
  simp [applyFailures, List.foldl_append]

lemma CircuitBreaker.applyFailures_count (cb : CircuitBreaker) (ts : List Nat) :
    (cb.applyFailures ts).failure_count = cb.failure_count + ts.length := by
  induction ts generalizing cb with
  | nil => simp [applyFailures_nil]
  | cons τ ts ih =>
      rw [applyFailures_cons, ih, on_failure_count, List.length_cons]
      omega

lemma CircuitBreaker.applyFailures_threshold (cb : CircuitBreaker) (ts : List Nat) :
    (cb.applyFailures ts).threshold = cb.threshold := by
  induction ts generalizing cb with
  | nil => rfl
  | cons τ ts ih => rw [applyFailures_cons, ih, on_failure_threshold]

lemma CircuitBreaker.applyFailures_timeout (cb : CircuitBreaker) (ts : List Nat) :
    (cb.applyFailures ts).timeout = cb.timeout := by
  induction ts generalizing cb with
  | nil => rfl
  | cons τ ts ih => rw [applyFailures_cons, ih, on_failure_timeout]

lemma CircuitBreaker.applyFailures_last (cb : CircuitBreaker) (ts : List Nat) (τ : Nat)
    (h : ts.getLast? = some τ) :
    (cb.applyFailures ts).last_failure_time = some τ := by
  induction ts generalizing cb with
  | nil => simp at h
  | cons τ' ts ih =>
      rw [applyFailures_cons]
      cases ts with
      | nil =>
          simp at h
          rw [applyFailures_nil, on_failure_last, h]
      | cons τ'' ts' =>
          rw [List.getLast?_cons_cons] at h
          exact ih _ h

lemma CircuitBreaker.applyFailures_state_closed (cb : CircuitBreaker) (ts : List Nat)
    (hs : cb.state = .Closed) (hc : cb.failure_count + ts.length < cb.threshold) :
    (cb.applyFailures ts).state = .Closed := by
  induction ts generalizing cb with
  | nil => simpa [applyFailures_nil]
  | cons τ ts ih =>
      rw [applyFailures_cons]
      have h1 : cb.failure_count + 1 < cb.threshold := by
        simp [List.length_cons] at hc; omega
      refine ih _ (cb.on_failure_state_closed τ hs h1) ?_
      rw [on_failure_count, on_failure_threshold]
      simp [List.length_cons] at hc
      omega

lemma CircuitBreaker.try_half_open_timeout (cb : CircuitBreaker) (now : Nat) :
    (cb.try_half_open now).timeout = cb.timeout := by
  unfold try_half_open
  split <;> (try rfl) <;> split <;> (try rfl) <;> split <;> rfl

lemma CircuitBreaker.can_execute_closed (cb : CircuitBreaker) (now : Nat)
    (hs : cb.state = .Closed) : cb.can_execute now = true := by
  unfold can_execute; rw [hs]

/-- The C2 circuit-breaker property, packaged over an arbitrary fresh
breaker with threshold `t` and timeout `d` and an arbitrary list `ts` of
`t` failure timestamps whose last entry is `τ`. -/
theorem circuitBreaker_spec (t d : Nat) (ht : 1 ≤ t) (ts : List Nat)
    (hlen : ts.length = t) (τ : Nat) (hlast : ts.getLast? = some τ) :
    (∀ i, i < t → ∀ now,
        ((CircuitBreaker.new t d).applyFailures (ts.take i)).can_execute now = true) ∧
    (∀ now, now - τ < d →
        ((CircuitBreaker.new t d).applyFailures ts).can_execute now = false) ∧
    (∀ now, d ≤ now - τ →
        ((CircuitBreaker.new t d).applyFailures ts).can_execute now = true ∧
        (((CircuitBreaker.new t d).applyFailures ts).try_half_open now).state = .HalfOpen) ∧
    (∀ now τ' now', d ≤ now - τ →
        (((((CircuitBreaker.new t d).applyFailures ts).try_half_open now).on_failure τ').state
          = .Open ∧
        (now' - τ' < d →
          (((((CircuitBreaker.new t d).applyFailures ts).try_half_open now).on_failure τ'
            ).can_execute now') = false))) ∧
    (∀ now, d ≤ now - τ →
        (((((CircuitBreaker.new t d).applyFailures ts).try_half_open now).on_success).state
          = .Closed ∧
        ((((CircuitBreaker.new t d).applyFailures ts).try_half_open now
          ).on_success).failure_count = 0)) := by
  have hcb₀ : (CircuitBreaker.new t d).state = .Closed := rfl
  have hts_ne : ts ≠ [] := by
    intro h; rw [h] at hlen; simp at hlen; omega
  -- state after all `t` failures is Open, with last failure at `τ`
  have hg : ts.getLast hts_ne = τ := by
    rw [List.getLast?_eq_getLast ts hts_ne] at hlast
    exact Option.some.inj hlast
  have hts : ts = ts.dropLast ++ [τ] := by
    conv_lhs => rw [← List.dropLast_append_getLast hts_ne]
    rw [hg]
  set ts' := ts.dropLast
  have hopen : ((CircuitBreaker.new t d).applyFailures ts).state = .Open := by
    rw [hts, CircuitBreaker.applyFailures_append]
    apply CircuitBreaker.on_failure_state_open
    rw [CircuitBreaker.applyFailures_count, CircuitBreaker.applyFailures_threshold]
    have : ts'.length + 1 = t := by
      rw [hts] at hlen; simpa using hlen
    simp [CircuitBreaker.new]
    omega
  have hlastf : ((CircuitBreaker.new t d).applyFailures ts).last_failure_time = some τ :=
    CircuitBreaker.applyFailures_last _ _ _ hlast
  have htimeout : ((CircuitBreaker.new t d).applyFailures ts).timeout = d :=
    CircuitBreaker.applyFailures_timeout _ _
  refine ⟨?_, ?_, ?_, ?_, ?_⟩
  · -- before the t-th failure the breaker stays Closed, so calls pass
    intro i hi now
    apply CircuitBreaker.can_execute_closed
    apply CircuitBreaker.applyFailures_state_closed _ _ hcb₀
    simp [CircuitBreaker.new]
    have : (ts.take i).length = i := by
      rw [List.length_take, hlen]; omega
    omega
  · -- Open and cool-down not elapsed: can_execute is false
    intro now hnow
    unfold CircuitBreaker.can_execute
    rw [hopen, hlastf]
    simp [htimeout]
    omega
  · -- cool-down elapsed: calls pass again and try_half_open moves to HalfOpen
    intro now hnow
    constructor
    · unfold CircuitBreaker.can_execute
      rw [hopen, hlastf]
      simp [htimeout]
      omega
    · unfold CircuitBreaker.try_half_open
      rw [if_pos (by simp [hopen]), hlastf]
      simp [htimeout, hnow]
  · -- a failure during the half-open trial reopens immediately
    intro now τ' now' hnow
    have hho : (((CircuitBreaker.new t d).applyFailures ts).try_half_open now).state
        = .HalfOpen := by
      unfold CircuitBreaker.try_half_open
      rw [if_pos (by simp [hopen]), hlastf]
      simp [htimeout, hnow]
    set cb₁ := ((CircuitBreaker.new t d).applyFailures ts).try_half_open now with hcb₁
    have hstO : (cb₁.on_failure τ').state = .Open := by
      unfold CircuitBreaker.on_failure
      dsimp only
      split <;>
        first
          | rfl
          | (rename_i h2; dsimp only at h2; exact absurd hho h2)
    refine ⟨hstO, ?_⟩
    intro hnow'
    unfold CircuitBreaker.can_execute
    rw [hstO, CircuitBreaker.on_failure_last, CircuitBreaker.on_failure_timeout]
    have ht₁ : cb₁.timeout = d := by
      rw [hcb₁, CircuitBreaker.try_half_open_timeout, htimeout]
    simp [ht₁]
    omega
  · -- a success during the trial closes the breaker and resets the counter
    intro now _
    exact ⟨rfl, rfl⟩

/-- C2: for a `CircuitBreaker` with threshold `t ≥ 1` and timeout `d`,
starting from `new`: fewer than `t` failures keep `can_execute` true;
after exactly `t` consecutive `on_failure` calls (the last at time `τ`)
`can_execute` is false while `now - τ < d`; once `d` has elapsed
`can_execute` passes again and `try_half_open` moves the breaker to
`HalfOpen`, which allows a trial call; `on_failure` during that trial
returns the state to `Open` immediately (with calls blocked for a fresh
timeout); `on_success` sets the state to `Closed` and the failure counter
to `0`. -/
theorem C2_circuit_breaker (t d : Nat) (ht : 1 ≤ t) (ts : List Nat)
    (hlen : ts.length = t) (τ : Nat) (hlast : ts.getLast? = some τ) :
    (∀ i, i < t → ∀ now,
        ((CircuitBreaker.new t d).applyFailures (ts.take i)).can_execute now = true) ∧
    (∀ now, now - τ < d →
        ((CircuitBreaker.new t d).applyFailures ts).can_execute now = false) ∧
    (∀ now, d ≤ now - τ →
        ((CircuitBreaker.new t d).applyFailures ts).can_execute now = true ∧
        (((CircuitBreaker.new t d).applyFailures ts).try_half_open now).state = .HalfOpen) ∧
    (∀ now τ' now', d ≤ now - τ →
        (((((CircuitBreaker.new t d).applyFailures ts).try_half_open now).on_failure τ').state
          = .Open ∧
        (now' - τ' < d →
          (((((CircuitBreaker.new t d).applyFailures ts).try_half_open now).on_failure τ'
            ).can_execute now') = false))) ∧
    (∀ now, d ≤ now - τ →
        (((((CircuitBreaker.new t d).applyFailures ts).try_half_open now).on_success).state
          = .Closed ∧
        ((((CircuitBreaker.new t d).applyFailures ts).try_half_open now
          ).on_success).failure_count = 0)) :=
  circuitBreaker_spec t d ht ts hlen τ hlast

/-- Witness for `C2_circuit_breaker`: threshold 2, timeout 5, failures at
times 3 and 4; a concrete run through every conjunct. -/
theorem C2_circuit_breaker_witness :
    ((CircuitBreaker.new 2 5).applyFailures ([3, 4].take 1)).can_execute 100 = true ∧
    ((CircuitBreaker.new 2 5).applyFailures [3, 4]).can_execute 6 = false ∧
    (((CircuitBreaker.new 2 5).applyFailures [3, 4]).try_half_open 9).state = .HalfOpen ∧
    ((((CircuitBreaker.new 2 5).applyFailures [3, 4]).try_half_open 9).on_failure 9).state
      = .Open ∧
    ((((CircuitBreaker.new 2 5).applyFailures [3, 4]).try_half_open 9).on_success).failure_count
      = 0 := by
  have h := C2_circuit_breaker 2 5 (by decide) [3, 4] rfl 4 rfl
  exact ⟨h.1 1 (by decide) 100, h.2.1 6 (by decide), (h.2.2.1 9 (by decide)).2,
    (h.2.2.2.1 9 9 13 (by decide)).1, (h.2.2.2.2 9 (by decide)).2⟩

lemma retryLoop_succeeds (op : Nat → Except E T) (err : Nat → E) (m : Nat) (v : T) :
    ∀ k a d, a + k + 1 ≤ m →
      (∀ i, a + 1 ≤ i → i ≤ a + k → op i = .error (err i)) →
      op (a + k + 1) = .ok v →
      retryLoop op m a d = (.ok v, a + k + 1) := by
  intro k
  induction k with
  | zero =>
      intro a d hle herr hok
      unfold retryLoop
      dsimp only
      rw [show a + 0 + 1 = a + 1 by omega] at hok ⊢
      rw [hok]
  | succ k ih =>
      intro a d hle herr hok
      unfold retryLoop
      dsimp only
      rw [herr (a + 1) (by omega) (by omega)]
      dsimp only
      rw [if_neg (by omega)]
      have := ih (a + 1) (min (d * 2) 30000) (by omega)
        (fun i h1 h2 => herr i (by omega) (by omega))
        (by rw [show a + 1 + k + 1 = a + (k + 1) + 1 by omega]; exact hok)
      rw [this, show a + 1 + k + 1 = a + (k + 1) + 1 by omega]

lemma retryLoop_all_fail (op : Nat → Except E T) (err : Nat → E) (m : Nat) :
    ∀ j a d, m - a = j → a < m →
      (∀ i, a + 1 ≤ i → i ≤ m → op i = .error (err i)) →
      retryLoop op m a d = (.error (err m), m) := by
  intro j
  induction j with
  | zero => intro a d hj ha _; omega
  | succ j ih =>
      intro a d hj ha herr
      unfold retryLoop
      dsimp only
      rw [herr (a + 1) (by omega) (by omega)]
      dsimp only
      by_cases hstop : m ≤ a + 1
      · rw [if_pos hstop]
        have : a + 1 = m := by omega
        rw [this]
      · rw [if_neg hstop]
        exact ih (a + 1) (min (d * 2) 30000) (by omega) (by omega)
          (fun i h1 h2 => herr i (by omega) h2)

/-- C3: for every operation and `max_attempts = m ≥ 1`: if the operation
fails on attempts `1..k` and succeeds on attempt `k+1` with `k < m`,
`retry_with_backoff` returns the success value having invoked the
operation exactly `k+1` times; if it fails on all of `1..m`, the operation
is invoked exactly `m` times and the final (m-th) error is returned. -/
theorem C3_retry_with_backoff (op : Nat → Except E T) (err : Nat → E) (m : Nat)
    (hm : 1 ≤ m) (d : Nat) :
    (∀ k v, k < m → (∀ i, 1 ≤ i → i ≤ k → op i = .error (err i)) →
      op (k + 1) = .ok v → retry_with_backoff op m d = (.ok v, k + 1)) ∧
    ((∀ i, 1 ≤ i → i ≤ m → op i = .error (err i)) →
      retry_with_backoff op m d = (.error (err m), m)) := by
  constructor
  · intro k v hk herr hok
    have h := retryLoop_succeeds op err m v k 0 d (by omega)
      (fun i h1 h2 => herr i (by omega) (by omega)) (by simpa using hok)
    simpa [retry_with_backoff] using h
  · intro herr
    have h := retryLoop_all_fail op err m m 0 d (by omega) (by omega)
      (fun i h1 h2 => herr i (by omega) h2)
    simpa [retry_with_backoff] using h

/-- Witness for `C3_retry_with_backoff`: an operation failing once then
succeeding returns the value after exactly 2 invocations; one failing
always is invoked exactly 3 times and its final error is returned. -/
theorem C3_retry_with_backoff_witness :
    retry_with_backoff (fun i => if i = 1 then .error 7 else .ok 42) 3 500 = (.ok 42, 2) ∧
    retry_with_backoff (fun i => (.error i : Except Nat Nat)) 3 500 = (.error 3, 3) := by
  constructor
  · exact (C3_retry_with_backoff (fun i => if i = 1 then .error 7 else .ok 42)
      (fun _ => 7) 3 (by decide) 500).1 1 42 (by decide)
      (fun i h1 h2 => by interval_cases i
                         rfl) rfl
  · exact (C3_retry_with_backoff (fun i => (.error i : Except Nat Nat))
      (fun i => i) 3 (by decide) 500).2 (fun i h1 h2 => rfl)

/-! ### Rust strings

Rust `String`/`str` values are modelled as lists of Unicode scalar values;
the Rust byte length (`str::len`) is the summed UTF-8 size of the
characters. -/

/-- Rust string model. -/
abbrev RStr := List Char

/-- `str::len` - the UTF-8 byte length. -/
def rstrLen (s : RStr) : Nat := (s.map Char.utf8Size).sum

/-- `String::truncate(new_len)` (std): no-op when `new_len` is at least the
byte length; otherwise cuts at byte position `new_len`, and PANICS (here
`none`) when that position is not a character boundary. -/
def rustTruncate : RStr → Nat → Option RStr
  | _, 0 => some []
  | [], _ + 1 => some []
  | c :: cs, n + 1 =>
      if c.utf8Size ≤ n + 1 then (rustTruncate cs (n + 1 - c.utf8Size)).map (c :: ·)
      else none

/-- `str::contains` with a string pattern: substring test (an empty
pattern always matches). -/
def strContains : RStr → RStr → Bool
  | [], pat => pat.isEmpty
  | h :: t, pat => pat.isPrefixOf (h :: t) || strContains t pat

/-- Scanning loop of `str::replace`: replace each leftmost occurrence of
the (non-empty) pattern and continue after it - non-overlapping. -/
def strReplaceAux (pat to_ : RStr) (hp : pat ≠ []) : RStr → RStr
  | [] => []
  | c :: rest =>
      if pat.isPrefixOf (c :: rest) then
        to_ ++ strReplaceAux pat to_ hp ((c :: rest).drop pat.length)
      else c :: strReplaceAux pat to_ hp rest
termination_by s => s.length
decreasing_by
  all_goals simp
  all_goals
    cases pat with
    | nil => exact absurd rfl hp
    | cons p ps => simp only [List.length_cons]; omega

/-- `str::replace`: all non-overlapping occurrences of `pat` in `s` are
replaced by `to`; an empty pattern matches at every character boundary. -/
def strReplace (s pat to_ : RStr) : RStr :=
  if hp : pat = [] then to_ ++ s.flatMap (fun c => c :: to_)
  else strReplaceAux pat to_ hp s

/-- `str::trim` (Unicode-whitespace at both ends). -/
def strTrim (s : RStr) : RStr :=
  ((s.dropWhile Char.isWhitespace).reverse.dropWhile Char.isWhitespace).reverse

/-- `str::to_lowercase`, character-wise (the handful of multi-character
Unicode lowercase expansions are irrelevant to the ASCII patterns it is
compared against here). -/
def strToLowercase (s : RStr) : RStr := s.map Char.toLower

/-! ### Errors (`src/errors.rs`)

Only the variants the modelled code paths construct; the formatted
message payloads are abstracted away - all the code under study branches
on the variant alone. -/

/-- `NCBError` (`src/errors.rs` lines 2-72), restricted to the variants
reachable from the modelled functions. -/
inductive NCBError where
  | InvalidInput
  | InvalidRegex
  | TextTooLong (max_length : Nat)
  | ProhibitedContent
  | VOICEVOX
  | TTSSynthesis
deriving DecidableEq, Repr

/-- `constants::MAX_TTS_TEXT_LENGTH` (`src/errors.rs` line 277). -/
def MAX_TTS_TEXT_LENGTH : Nat := 500

/-- `constants::MAX_REGEX_PATTERN_LENGTH` (`src/errors.rs` line 284). -/
def MAX_REGEX_PATTERN_LENGTH : Nat := 100

/-- `constants::DEFAULT_CACHE_SIZE` (`src/errors.rs` line 273). -/
def DEFAULT_CACHE_SIZE : Nat := 1000

/-- The prohibited patterns of `validation::validate_tts_text`
(`src/errors.rs` lines 207-212). -/
def prohibited_patterns : List RStr :=
  ["<script".toList, "javascript:".toList, "data:".toList, "<?xml".toList]

/-- `validation::validate_tts_text` (`src/errors.rs` lines 197-222). -/
def validate_tts_text (text : RStr) : Except NCBError Unit :=
  if (strTrim text).isEmpty then .error .InvalidInput
  else if MAX_TTS_TEXT_LENGTH < rstrLen text then
    .error (.TextTooLong MAX_TTS_TEXT_LENGTH)
  else
    let text_lower := strToLowercase text
    if prohibited_patterns.any (fun p => strContains text_lower p) then
      .error .ProhibitedContent
    else .ok ()



/-- Dollar sign. -/
def chr36 : Char := Char.ofNat 36

/-- Backslash. -/
def chr92 : Char := Char.ofNat 92
/-- Opening parenthesis. -/
def chr40 : Char := Char.ofNat 40
/-- Question mark. -/
def chr63 : Char := Char.ofNat 63
/-- Colon. -/
def chr58 : Char := Char.ofNat 58
/-- Equals sign. -/
def chr61 : Char := Char.ofNat 61
/-- Exclamation mark. -/
def chr33 : Char := Char.ofNat 33
/-- Less-than sign. -/
def chr60 : Char := Char.ofNat 60
/-- Asterisk. -/
def chr42 : Char := Char.ofNat 42
/-- Plus sign. -/
def chr43 : Char := Char.ofNat 43

/-- The ReDoS blocklist of `validation::validate_regex_pattern`
(`src/errors.rs` lines 135-144).  Each entry is the literal text of the
Rust raw string (backslashes included), exactly as it is passed to
`pattern.contains`. -/
def redos_patterns : List RStr :=
  [([chr92, chr40, chr92, chr63, chr92, chr58] : RStr),
   ([chr92, chr40, chr92, chr63, chr92, chr61] : RStr),
   ([chr92, chr40, chr92, chr63, chr92, chr33] : RStr),
   ([chr92, chr40, chr92, chr63, chr92, chr60, chr92, chr61] : RStr),
   ([chr92, chr40, chr92, chr63, chr92, chr60, chr92, chr33] : RStr),
   ([chr92, chr42, chr92, chr42] : RStr),
   ([chr92, chr43, chr92, chr42] : RStr),
   ([chr92, chr42, chr92, chr43] : RStr)]

/-- `validation::validate_regex_pattern` (`src/errors.rs` lines 133-168);
the final `Regex::new` syntax check is abstracted by the `compileOk`
predicate (the external regex crate). -/
def validate_regex_pattern (compileOk : RStr → Bool) (pattern : RStr) :
    Except NCBError Unit :=
  if redos_patterns.any (fun p => strContains pattern p) then .error .InvalidRegex
  else if MAX_REGEX_PATTERN_LENGTH < rstrLen pattern then .error .InvalidRegex
  else if compileOk pattern then .ok ()
  else .error .InvalidRegex

/-! ### The external `regex` crate

`Regex::new` and the match enumeration are external-library behaviour, so
they are parameters of the model: a compile function
`RStr → Option RustRegex` stands for `Regex::new` (`none` = compile
error), and a `RustRegex` carries the list of non-overlapping matches it
finds in a text.  What the repository's code *does* with a match - in
particular `Regex::replace_all` with a `&str` replacement, which performs
`$`-group expansion on the replacement - is modelled concretely below,
following the regex crate's documented replacement semantics. -/

/-- One regex match: half-open character span `[mstart, mend)` in the
haystack plus the capture-group texts (index 0 = the whole match). -/
structure RMatch where
  mstart : Nat
  mend : Nat
  groups : List (Option RStr)
deriving DecidableEq, Repr

/-- A compiled regex, abstracted to its match enumeration: the
non-overlapping matches in a haystack, in ascending position order. -/
structure RustRegex where
  findAll : RStr → List RMatch

/-- Numeric value of a digit run. -/
def digitsVal (ds : RStr) : Nat := ds.foldl (fun acc d => acc * 10 + (d.toNat - 48)) 0

/-- `$`-expansion of a `&str` replacement, from the regex crate's
`Replacer` impl for `&str`: `$$` is a literal dollar and `$N` is replaced
by capture group `N`'s text (empty when the group did not participate).
Named-group references behave analogously and are not modelled - nothing
here uses them. -/
def expandRepl (groups : List (Option RStr)) : RStr → RStr
  | [] => []
  | c :: rest =>
      if c ≠ chr36 then c :: expandRepl groups rest
      else
        match rest with
        | [] => [chr36]
        | c' :: rest' =>
            if c' = chr36 then chr36 :: expandRepl groups rest'
            else
              let digits := (c' :: rest').takeWhile Char.isDigit
              if digits.isEmpty then chr36 :: expandRepl groups (c' :: rest')
              else
                ((groups.getD (digitsVal digits) none).getD []) ++
                  expandRepl groups ((c' :: rest').drop digits.length)
termination_by s => s.length
decreasing_by
  all_goals simp only [List.length_cons, List.length_drop]
  all_goals omega

/-- Stitch the replaced text back together: the text before each match,
then the expanded replacement, then continue after the match. -/
def replaceAllGo (text : RStr) (repl : RStr) : List RMatch → Nat → RStr
  | [], last => text.drop last
  | m :: ms, last =>
      (text.drop last).take (m.mstart - last) ++ expandRepl m.groups repl ++
        replaceAllGo text repl ms m.mend

/-- `Regex::replace_all(text, repl)` with a `&str` replacement: every
match is replaced by the `$`-expanded replacement. -/
def RustRegex.replace_all (r : RustRegex) (text repl : RStr) : RStr :=
  replaceAllGo text repl (r.findAll text) 0

/-- Literal-replacement stitching used by `specReplaceAllLiteral`. -/
def replaceAllGoLiteral (text : RStr) (repl : RStr) : List RMatch → Nat → RStr
  | [], last => text.drop last
  | m :: ms, last =>
      (text.drop last).take (m.mstart - last) ++ repl ++
        replaceAllGoLiteral text repl ms m.mend

/-- Modelled from the spec (refinement comparison for the dictionary
claim): `replace_all` as the spec describes it, with the replacement
string "treated literally (no backreference or capture-group
expansion)". -/
def specReplaceAllLiteral (r : RustRegex) (text repl : RStr) : RStr :=
  replaceAllGoLiteral text repl (r.findAll text) 0

/-! ### Dictionary rules (`src/database/dictionary.rs`) and the
normalization loop of `Message::parse` (`src/implement/message.rs`). -/

/-- `Rule` (`src/database/dictionary.rs` lines 3-9); the Rust field `to`
is a Lean keyword and is spelled `to_`. -/
structure Rule where
  id : RStr
  is_regex : Bool
  rule : RStr
  to_ : RStr

/-- One iteration of the dictionary loop (`src/implement/message.rs`
lines 57-76): a regex rule is applied with `replace_all` when its pattern
compiles and is skipped (warn + `continue`) when it does not; a
non-regex rule uses `str::replace`.  `compile` stands for `Regex::new`;
`get_cached_regex` is observationally the same function (see
`get_cached_regex_consistent`). -/
def applyRule (compile : RStr → Option RustRegex) (text : RStr) (rule : Rule) : RStr :=
  if rule.is_regex then
    match compile rule.rule with
    | some regex => regex.replace_all text rule.to_
    | none => text
  else strReplace text rule.rule rule.to_

/-- The dictionary loop over all rules, in list order (each later rule
sees the output of earlier rules). -/
def applyRules (compile : RStr → Option RustRegex) (rules : List Rule) (text : RStr) : RStr :=
  rules.foldl (applyRule compile) text

/-- Modelled from the spec (refinement comparison): the dictionary loop
with regex replacements treated literally, as the spec asserts. -/
def specApplyRuleLiteral (compile : RStr → Option RustRegex) (text : RStr) (rule : Rule) : RStr :=
  if rule.is_regex then
    match compile rule.rule with
    | some regex => specReplaceAllLiteral regex text rule.to_
    | none => text
  else strReplace text rule.rule rule.to_

/-- Modelled from the spec (refinement comparison): fold of
`specApplyRuleLiteral`. -/
def specApplyRulesLiteral (compile : RStr → Option RustRegex) (rules : List Rule) (text : RStr) : RStr :=
  rules.foldl (specApplyRuleLiteral compile) text

/-! ### `lru::LruCache` and the regex compilation cache
(`src/utils.rs` lines 9-11 and 95-122). -/

/-- Model of `lru::LruCache`: entries most-recently-used first, bounded
by `cap`. -/
structure Lru (κ ν : Type) where
  entries : List (κ × ν)
  cap : Nat

/-- `LruCache::peek`: lookup without touching the recency order. -/
def Lru.peek [DecidableEq κ] (c : Lru κ ν) (k : κ) : Option ν :=
  (c.entries.find? (fun e => decide (e.1 = k))).map Prod.snd

/-- `LruCache::get`: lookup, moving a hit to most-recently-used. -/
def Lru.get [DecidableEq κ] (c : Lru κ ν) (k : κ) : Option ν × Lru κ ν :=
  match c.entries.find? (fun e => decide (e.1 = k)) with
  | some e => (some e.2, ⟨e :: c.entries.filter (fun e' => decide (e'.1 ≠ k)), c.cap⟩)
  | none => (none, c)

/-- `LruCache::put`: insert as most-recently-used, replacing an existing
entry for the key and evicting the least-recently-used entry when over
capacity. -/
def Lru.put [DecidableEq κ] (c : Lru κ ν) (k : κ) (v : ν) : Lru κ ν :=
  ⟨((k, v) :: c.entries.filter (fun e => decide (e.1 ≠ k))).take c.cap, c.cap⟩

/-- `get_cached_regex` (`src/utils.rs` lines 95-122).  The global
`REGEX_CACHE` is passed and returned explicitly; `compile` stands for
`Regex::new`. -/
def get_cached_regex (compile : RStr → Option RustRegex)
    (cache : Lru RStr RustRegex) (pattern : RStr) :
    Except NCBError RustRegex × Lru RStr RustRegex :=
  match cache.peek pattern with
  | some cached => (.ok cached, cache)
  | none =>
      match compile pattern with
      | some regex => (.ok regex, cache.put pattern regex)
      | none => (.error .InvalidRegex, cache)

/-- The regex cache only ever holds results of successful compiles. -/
def LruConsistent (compile : RStr → Option RustRegex)
    (cache : Lru RStr RustRegex) : Prop :=
  ∀ e ∈ cache.entries, compile e.1 = some e.2

lemma Lru.peek_consistent {compile : RStr → Option RustRegex}
    {cache : Lru RStr RustRegex} (h : LruConsistent compile cache)
    {p : RStr} {r : RustRegex} (hp : cache.peek p = some r) :
    compile p = some r := by
  unfold peek at hp
  cases hf : cache.entries.find? (fun e => decide (e.1 = p)) with
  | none => rw [hf] at hp; simp at hp
  | some e =>
      rw [hf] at hp
      simp at hp
      have hmem := List.mem_of_find?_eq_some hf
      have hkey := List.find?_some hf
      simp at hkey
      have := h e hmem
      rw [hkey, hp] at this
      exact this

/-- On a cache consistent with `compile`, `get_cached_regex` returns
exactly what `Regex::new` would, and keeps the cache consistent - this is
why `Message::parse` below may consult `compile` directly. -/
lemma get_cached_regex_consistent (compile : RStr → Option RustRegex)
    (cache : Lru RStr RustRegex) (p : RStr) (h : LruConsistent compile cache) :
    (get_cached_regex compile cache p).1 =
      (match compile p with
        | some r => .ok r
        | none => .error .InvalidRegex) ∧
    LruConsistent compile (get_cached_regex compile cache p).2 := by
  unfold get_cached_regex
  cases hpk : cache.peek p with
  | some cached =>
      refine ⟨?_, h⟩
      rw [Lru.peek_consistent h hpk]
  | none =>
      cases hc : compile p with
      | some regex =>
          refine ⟨rfl, ?_⟩
          intro e he
          unfold Lru.put at he
          simp at he
          have := List.mem_of_mem_take he
          rcases List.mem_cons.mp this with h1 | h1
          · rw [h1]; exact hc
          · exact h e (List.mem_of_mem_filter h1)
      | none => exact ⟨rfl, h⟩

/-! ### Messages and the session instance
(`src/tts/instance.rs`, `src/implement/message.rs`, `src/tts/message.rs`). -/

/-- The fields of a Discord `Message` that `Message::parse` reads, plus
the display name that the `get_user_name` lookup resolves to for its
author (a network/cache query, modelled as data). -/
structure MessageM where
  content : RStr
  author : Nat
  name : RStr
  attachments : Nat
deriving DecidableEq, Repr

/-- `TTSInstance` (`src/tts/instance.rs` lines 14-21). -/
structure TTSInstanceM where
  before_message : Option MessageM
  text_channels : List Nat
  voice_channel : Nat
  guild : Nat
deriving DecidableEq, Repr

/-- `Dictionary` (`src/database/dictionary.rs` lines 11-14). -/
structure DictionaryM where
  rules : List Rule

/-- The `ServerConfig` rows `Message::parse` reads
(`src/database/server_config.rs`, construction at
`src/database/database.rs` lines 133-142). -/
structure ServerConfigM where
  dictionary : DictionaryM
  autostart_channel_id : Option Nat
  voice_state_announce : Option Bool
  read_username : Option Bool

/-- The speaker announcement infix of
`format!("{}さんの発言<break time=\"200ms\"/>{}", name, text)`
(`src/implement/message.rs` lines 83 and 92). -/
def speakerInfix : RStr := "さんの発言<break time=\"200ms\"/>".toList

/-- The SSML break tag used by the attachment suffix and announcements. -/
def breakTag : RStr := "<break time=\"200ms\"/>".toList

/-- The attachment suffix of `src/implement/message.rs` lines 98-104. -/
def attachmentsSuffix (n : Nat) : RStr :=
  breakTag ++ (Nat.repr n).toList ++ "個の添付ファイル".toList

/-- `Message::parse` for chat messages (`src/implement/message.rs` lines
24-109).  The server-config fetch is modelled as the given `cfg` (its
error fallbacks return the raw content unchanged and no claim concerns
them).  `compile` stands for `Regex::new`, interchangeable with
`get_cached_regex` by `get_cached_regex_consistent`.  The
`text.truncate(MAX_TTS_TEXT_LENGTH)` fallback can panic on a non-boundary
byte index (see `rustTruncate`), hence the `Option` result: `none` is a
panic.  Returns the parsed text and the updated instance
(`before_message := some msg`, line 106). -/
def MessageM.parse (compile : RStr → Option RustRegex) (cfg : ServerConfigM)
    (msg : MessageM) (inst : TTSInstanceM) : Option (RStr × TTSInstanceM) := do
  let text := msg.content
  let text ← match validate_tts_text text with
    | .error _ => rustTruncate text MAX_TTS_TEXT_LENGTH
    | .ok _ => some text
  let text := applyRules compile cfg.dictionary.rules text
  let res :=
    match inst.before_message with
    | some before_message =>
        if before_message.author = msg.author then text
        else if cfg.read_username.getD true then msg.name ++ speakerInfix ++ text
        else text
    | none =>
        if cfg.read_username.getD true then msg.name ++ speakerInfix ++ text
        else text
  let res := if 0 < msg.attachments then res ++ attachmentsSuffix msg.attachments else res
  some (res, { inst with before_message := some msg })

/-- `AnnounceMessage` (`src/tts/message.rs` lines 31-33). -/
structure AnnounceMessage where
  message : RStr

/-- `AnnounceMessage::parse` (`src/tts/message.rs` lines 37-40): clears
`before_message` and wraps the announcement in SSML. -/
def AnnounceMessage.parse (ann : AnnounceMessage) (inst : TTSInstanceM) :
    RStr × TTSInstanceM :=
  ("<speak>アナウンス".toList ++ breakTag ++ ann.message ++ "</speak>".toList,
    { inst with before_message := none })

/-! ### Dictionary normalization (C6), speaker prefix (C7), regex cache
(C8), parse totality (C10). -/

lemma isPrefixOf_append_self (p rest : RStr) : p.isPrefixOf (p ++ rest) = true := by
  induction p with
  | nil => simp [List.isPrefixOf]
  | cons a as ih => simp [List.isPrefixOf, ih]

lemma strReplace_of_not_contains (p to_ t : RStr) (h : strContains t p = false) :
    strReplace t p to_ = t := by
  have hp : p ≠ [] := by
    intro hnil
    subst hnil
    cases t with
    | nil => simp [strContains] at h
    | cons c rest => simp [strContains, List.isPrefixOf] at h
  induction t with
  | nil => simp [strReplace, hp, strReplaceAux]
  | cons c rest ih =>
      simp only [strContains, Bool.or_eq_false_iff] at h
      rw [strReplace, dif_neg hp, strReplaceAux, if_neg (by simp [h.1])]
      have := ih h.2
      rw [strReplace, dif_neg hp] at this
      rw [this]

lemma strReplace_leftmost (p to_ rest : RStr) (hp : p ≠ []) :
    strReplace (p ++ rest) p to_ = to_ ++ strReplace rest p to_ := by
  cases hps : p with
  | nil => exact absurd hps hp
  | cons a as =>
      rw [← hps]
      rw [strReplace, dif_neg hp, strReplace, dif_neg hp]
      cases hrw : p ++ rest with
      | nil =>
          rcases List.append_eq_nil.mp hrw with ⟨h1, _⟩
          exact absurd h1 hp
      | cons c cs =>
          rw [strReplaceAux, if_pos (by rw [← hrw]; exact isPrefixOf_append_self p rest)]
          rw [← hrw, List.drop_left]

/-- C6 counterexample material: `Regex::new("(a)")` - a regex matching
the single character `a` with one capture group; on the haystack `a` it
reports one match spanning the whole text with group 1 = `a` (exactly
what the regex crate reports). -/
def regexC6 : RustRegex :=
  ⟨fun t => if t = ['a'] then [⟨0, 1, [some ['a'], some ['a']]⟩] else []⟩

/-- Compile function for the C6 counterexample: knows only `(a)`. -/
def compileC6 : RStr → Option RustRegex :=
  fun p => if p = "(a)".toList then some regexC6 else none

/-- The C6 counterexample rule: regex `(a)` with replacement `$1$1`. -/
def ruleC6 : Rule := ⟨"r".toList, true, "(a)".toList, "$1$1".toList⟩

/-- C6 counterexample: on input `a`, the dictionary rule
`(a) → $1$1` yields `aa` (the regex crate expands `$1` in a `&str`
replacement), not the literal `$1$1` the claim's "treated literally (no
backreference or capture-group expansion)" demands - the two
normalization semantics disagree at this input. -/
theorem C6_counterexample :
    applyRules compileC6 [ruleC6] ['a'] = ['a', 'a'] ∧
    specApplyRulesLiteral compileC6 [ruleC6] ['a'] = "$1$1".toList ∧
    applyRules compileC6 [ruleC6] ['a'] ≠ specApplyRulesLiteral compileC6 [ruleC6] ['a'] := by
  have h1 : applyRules compileC6 [ruleC6] ['a'] = ['a', 'a'] := by
    simp [applyRules, applyRule, compileC6, ruleC6, regexC6, RustRegex.replace_all,
      replaceAllGo, expandRepl, digitsVal]
    decide
  have h2 : specApplyRulesLiteral compileC6 [ruleC6] ['a'] = "$1$1".toList := by decide
  refine ⟨h1, h2, ?_⟩
  rw [h1, h2]
  decide

/-- C6 (amended): dictionary normalization applies the guild's rules
sequentially in list order (each later rule sees the output of earlier
rules); a regex rule replaces all non-overlapping matches with its
replacement string subject to the regex crate's `$`-capture-group
expansion (not treated literally); a non-regex rule replaces all
leftmost non-overlapping literal occurrences of its pattern; a rule whose
pattern fails to compile is skipped; normalization is total. -/
theorem C6_dictionary_normalization (compile : RStr → Option RustRegex) :
    (∀ r rs t, applyRules compile (r :: rs) t = applyRules compile rs (applyRule compile t r)) ∧
    (∀ rule t, rule.is_regex = true → compile rule.rule = none →
        applyRule compile t rule = t) ∧
    (∀ rule t regex, rule.is_regex = true → compile rule.rule = some regex →
        applyRule compile t rule = regex.replace_all t rule.to_) ∧
    (∀ rule t, rule.is_regex = false →
        applyRule compile t rule = strReplace t rule.rule rule.to_) ∧
    (∀ p to_ t, strContains t p = false → strReplace t p to_ = t) ∧
    (∀ p to_ rest, p ≠ [] → strReplace (p ++ rest) p to_ = to_ ++ strReplace rest p to_) := by
  refine ⟨fun r rs t => rfl, ?_, ?_, ?_, ?_, ?_⟩
  · intro rule t hreg hnone
    unfold applyRule
    rw [if_pos hreg, hnone]
  · intro rule t regex hreg hsome
    unfold applyRule
    rw [if_pos hreg, hsome]
  · intro rule t hreg
    unfold applyRule
    rw [if_neg (by simp [hreg])]
  · exact fun p to_ t h => strReplace_of_not_contains p to_ t h
  · exact fun p to_ rest hp => strReplace_leftmost p to_ rest hp

/-- Witness for `C6_dictionary_normalization`: a bad pattern is skipped;
a no-occurrence literal replacement is the identity; a leftmost
occurrence is consumed whole. -/
theorem C6_dictionary_normalization_witness :
    applyRule (fun _ => none) "abc".toList ⟨"r".toList, true, "(".toList, "x".toList⟩
      = "abc".toList ∧
    strReplace "xyz".toList "ab".toList "Q".toList = "xyz".toList ∧
    strReplace ("ab".toList ++ "zab".toList) "ab".toList "Q".toList
      = "Q".toList ++ strReplace "zab".toList "ab".toList "Q".toList := by
  have h := C6_dictionary_normalization (fun _ => none)
  exact ⟨h.2.1 _ "abc".toList rfl rfl,
    h.2.2.2.2.1 "ab".toList "Q".toList "xyz".toList (by decide),
    h.2.2.2.2.2 "ab".toList "Q".toList "zab".toList (by decide)⟩

/-- The body `Message::parse` computes before any speaker prefix or
attachment suffix: validation/truncation then the dictionary fold. -/
def MessageM.parsedBody (compile : RStr → Option RustRegex) (cfg : ServerConfigM)
    (msg : MessageM) : Option RStr :=
  (match validate_tts_text msg.content with
    | .error _ => rustTruncate msg.content MAX_TTS_TEXT_LENGTH
    | .ok _ => some msg.content).map (applyRules compile cfg.dictionary.rules)

/-- The attachment suffix step of `Message::parse`. -/
def MessageM.withAttachments (msg : MessageM) (s : RStr) : RStr :=
  if 0 < msg.attachments then s ++ attachmentsSuffix msg.attachments else s

lemma MessageM.parse_eq (compile : RStr → Option RustRegex) (cfg : ServerConfigM)
    (msg : MessageM) (inst : TTSInstanceM) :
    MessageM.parse compile cfg msg inst =
      (MessageM.parsedBody compile cfg msg).map (fun body =>
        (msg.withAttachments
          (match inst.before_message with
            | some before => if before.author = msg.author then body
                else if cfg.read_username.getD true then msg.name ++ speakerInfix ++ body
                else body
            | none => if cfg.read_username.getD true then msg.name ++ speakerInfix ++ body
                else body),
          { inst with before_message := some msg })) := by
  unfold MessageM.parse MessageM.parsedBody MessageM.withAttachments
  dsimp only
  cases hv : validate_tts_text msg.content with
  | error e =>
      cases ht : rustTruncate msg.content MAX_TTS_TEXT_LENGTH with
      | none => simp [ht]
      | some t => simp [ht]
  | ok u => simp

/-- C7: with the guild's read-username toggle on, two consecutive parses
by the same author produce no speaker-name prefix on the second
utterance; a different author, the first message ever (no
`before_message`), or any message right after an announcement parse - which
clears `before_message` - is prefixed with the speaker's name. -/
theorem C7_speaker_announcement (compile : RStr → Option RustRegex)
    (cfg : ServerConfigM) (hru : cfg.read_username.getD true = true)
    (msg1 msg2 : MessageM) (inst : TTSInstanceM) (out1 : RStr) (inst1 : TTSInstanceM)
    (h1 : MessageM.parse compile cfg msg1 inst = some (out1, inst1))
    (body2 : RStr) (hb2 : MessageM.parsedBody compile cfg msg2 = some body2) :
    inst1.before_message = some msg1 ∧
    (msg2.author = msg1.author →
      MessageM.parse compile cfg msg2 inst1 =
        some (msg2.withAttachments body2, { inst1 with before_message := some msg2 })) ∧
    (msg2.author ≠ msg1.author →
      MessageM.parse compile cfg msg2 inst1 =
        some (msg2.withAttachments (msg2.name ++ speakerInfix ++ body2),
          { inst1 with before_message := some msg2 })) ∧
    (∀ inst₀ : TTSInstanceM, inst₀.before_message = none →
      MessageM.parse compile cfg msg2 inst₀ =
        some (msg2.withAttachments (msg2.name ++ speakerInfix ++ body2),
          { inst₀ with before_message := some msg2 })) ∧
    (∀ (ann : AnnounceMessage) (inst₂ : TTSInstanceM),
      (AnnounceMessage.parse ann inst₂).2.before_message = none ∧
      MessageM.parse compile cfg msg2 (AnnounceMessage.parse ann inst₂).2 =
        some (msg2.withAttachments (msg2.name ++ speakerInfix ++ body2),
          { (AnnounceMessage.parse ann inst₂).2 with before_message := some msg2 })) := by
  rw [MessageM.parse_eq] at h1
  have hinst1 : inst1.before_message = some msg1 := by
    cases hb1 : MessageM.parsedBody compile cfg msg1 with
    | none => rw [hb1] at h1; simp at h1
    | some b1 =>
        rw [hb1] at h1
        simp at h1
        rw [← h1.2]
  refine ⟨hinst1, ?_, ?_, ?_, ?_⟩
  · intro hsame
    rw [MessageM.parse_eq, hb2, hinst1]
    simp [hsame]
  · intro hdiff
    rw [MessageM.parse_eq, hb2, hinst1]
    have hne : ¬ (msg1.author = msg2.author) := fun h => hdiff h.symm
    simp [hne, hru]
  · intro inst₀ h₀
    rw [MessageM.parse_eq, hb2, h₀]
    simp [hru]
  · intro ann inst₂
    refine ⟨rfl, ?_⟩
    rw [MessageM.parse_eq, hb2]
    simp [AnnounceMessage.parse, hru]

/-- Shared concrete parse material. -/
def cfgW : ServerConfigM := ⟨⟨[]⟩, none, none, some true⟩

/-- A first message by author 10. -/
def msgW1 : MessageM := ⟨"hello".toList, 10, "Alice".toList, 0⟩

/-- A second message by the same author 10. -/
def msgW2 : MessageM := ⟨"world".toList, 10, "Alice".toList, 0⟩

/-- A fresh instance with no last-spoken memory. -/
def instW : TTSInstanceM := ⟨none, [1], 2, 3⟩

/-- Witness for `C7_speaker_announcement`: after Alice's first message the
second consecutive Alice message is read without the speaker prefix. -/
theorem C7_speaker_announcement_witness :
    MessageM.parse (fun _ => none) cfgW msgW2 { instW with before_message := some msgW1 } =
      some ("world".toList, { instW with before_message := some msgW2 }) := by
  have h := C7_speaker_announcement (fun _ => none) cfgW rfl msgW1 msgW2 instW
    ("Aliceさんの発言<break time=\"200ms\"/>hello".toList)
    { instW with before_message := some msgW1 } (by decide) "world".toList (by decide)
  have h2 := h.2.1 rfl
  simpa [MessageM.withAttachments, msgW2] using h2

/-- The 101-character pattern for the C8 counterexample: 101 bytes, above
the 100-byte validation ceiling, yet perfectly valid regex syntax. -/
def longPattern : RStr := List.replicate 101 'a'

/-- A trivial compiled regex (empty match enumeration). -/
def regexTrivial : RustRegex := ⟨fun _ => []⟩

/-- A compile function that accepts every pattern - in particular
`longPattern`, which the real `Regex::new` also accepts. -/
def compileAll : RStr → Option RustRegex := fun _ => some regexTrivial

/-- The process-fresh regex cache (`src/utils.rs` lines 10-11). -/
def emptyRegexCache : Lru RStr RustRegex := ⟨[], DEFAULT_CACHE_SIZE⟩

/-- C8 counterexample: on a cache miss for a 101-character pattern -
longer than `MAX_REGEX_PATTERN_LENGTH` - `get_cached_regex` compiles,
caches and returns it, while `validate_regex_pattern` (the
length-ceiling/blocklist validation the claim puts on the miss path)
rejects that same pattern: the miss path performs no such validation.
(That validation runs only at rule-creation time,
`src/event_handler.rs` line 93.) -/
theorem C8_counterexample :
    (∃ r, (get_cached_regex compileAll emptyRegexCache longPattern).1 = .ok r) ∧
    ((get_cached_regex compileAll emptyRegexCache longPattern).2.peek longPattern).isSome
      = true ∧
    validate_regex_pattern (fun p => (compileAll p).isSome) longPattern
      = .error .InvalidRegex := by
  refine ⟨⟨regexTrivial, rfl⟩, rfl, rfl⟩

/-- C8 (amended): on a regex-compilation-cache miss the pattern is not
validated against the length ceiling or the ReDoS blocklist inside
`get_cached_regex` - it is compiled directly; only a successfully
compiled pattern is inserted into the cache before being returned; a
pattern that fails to compile yields the distinct `InvalidRegex` error
kind and is never inserted into the cache. -/
theorem C8_regex_cache_miss (compile : RStr → Option RustRegex)
    (cache : Lru RStr RustRegex) (p : RStr) (hmiss : cache.peek p = none) :
    (∀ r, compile p = some r →
        get_cached_regex compile cache p = (.ok r, cache.put p r)) ∧
    (compile p = none →
        get_cached_regex compile cache p = (.error .InvalidRegex, cache)) := by
  constructor
  · intro r hr
    unfold get_cached_regex
    rw [hmiss, hr]
  · intro hnone
    unfold get_cached_regex
    rw [hmiss, hnone]

/-- Witness for `C8_regex_cache_miss`: a fresh cache, a compiling
pattern. -/
theorem C8_regex_cache_miss_witness :
    get_cached_regex compileAll emptyRegexCache ['b'] =
      (.ok regexTrivial, emptyRegexCache.put ['b'] regexTrivial) :=
  (C8_regex_cache_miss compileAll emptyRegexCache ['b'] rfl).1 regexTrivial rfl

/-- The C10 failing input: 167 copies of `あ` - 501 UTF-8 bytes, so
validation fails on length and the fallback calls `text.truncate(500)`,
whose byte-500 cut falls inside the final three-byte character. -/
def overlongMultibyte : MessageM := ⟨List.replicate 167 'あ', 10, "Alice".toList, 0⟩

/-- An equally overlong ASCII message: 501 bytes of `a`. -/
def overlongAscii : MessageM := ⟨List.replicate 501 'a', 10, "Alice".toList, 0⟩

/-- C10 (code bug): message parsing is not total over message content.
On 501 bytes of ASCII the over-length fallback truncates and `parse`
returns a string, but on 167 copies of `あ` (also 501 bytes) the
byte-500 cut falls inside a character and `String::truncate` panics -
`none` in the model.  The claim states the intent (the code logs "using
truncated version" and the pipeline must never die on one message); the
code slips on UTF-8 character boundaries. -/
theorem C10_parse_panics_on_multibyte_truncation :
    (MessageM.parse (fun _ => none) cfgW overlongAscii instW).isSome = true ∧
    MessageM.parse (fun _ => none) cfgW overlongMultibyte instW = none := by
  refine ⟨by decide, by decide⟩

/-! ### The synthesis cache and backend router (C4, `src/tts/tts.rs`). -/

/-- `SynthesisInput` (`src/tts/gcp_tts/structs/synthesis_input.rs`). -/
structure SynthesisInput where
  text : Option RStr
  ssml : Option RStr
deriving DecidableEq, Repr

/-- `VoiceSelectionParams`
(`src/tts/gcp_tts/structs/voice_selection_params.rs`). -/
structure VoiceSelectionParams where
  languageCode : RStr
  name : RStr
  ssmlGender : RStr
deriving DecidableEq, Repr

/-- `AudioConfig` (`src/tts/gcp_tts/structs/audio_config.rs`); the two
`f32` fields (`speakingRate`, `pitch`) are floating point - outside the
embedding - and do not enter the cache key or any branch, so only the
encoding is carried. -/
structure AudioConfig where
  audioEncoding : RStr
deriving DecidableEq, Repr

/-- `SynthesizeRequest` (`src/tts/gcp_tts/structs/synthesize_request.rs`). -/
structure SynthesizeRequest where
  input : SynthesisInput
  voice : VoiceSelectionParams
  audioConfig : AudioConfig
deriving DecidableEq, Repr

/-- `CacheKey` (`src/tts/tts.rs` lines 36-40). -/
inductive CacheKey where
  | Voicevox (text : RStr) (speaker : Int)
  | GCP (input : SynthesisInput) (voice : VoiceSelectionParams)
deriving DecidableEq, Repr

/-- `TTS` (`src/tts/tts.rs` lines 25-34): the shared LRU audio cache and
the two per-backend circuit breakers.  Audio buffers (`Compressed`) are
abstracted to opaque ids; the metrics counters and the disk-persistence
path influence no result and are omitted. -/
structure TTS where
  cache : Lru CacheKey Nat
  voicevox_circuit_breaker : CircuitBreaker
  gcp_circuit_breaker : CircuitBreaker

/-- `TTS::new` (`src/tts/tts.rs` lines 51-70): empty cache of capacity
`DEFAULT_CACHE_SIZE`, default breakers (threshold 5, timeout 60 s). -/
def TTS.fresh : TTS :=
  ⟨⟨[], DEFAULT_CACHE_SIZE⟩, CircuitBreaker.new 5 60, CircuitBreaker.new 5 60⟩

/-- Per-call environment of a synthesis entry point: the backend network
capability (indexed by the 1-based invocation number within the call, as
in `retryLoop`), the clock, whether the voicevox client has
`original_api_url`, and the fate of the compress-and-cache step:
for `synthesize_voicevox` that step is a spawned task
(`tokio::spawn`, `src/tts/tts.rs` lines 163-171), so `spawnRan` records
whether it ran before the next call and `compressOk` whether its
`Compressed::new` succeeded; for `synthesize_gcp` compression is
synchronous and only `compressOk` applies. -/
structure SynthEnv where
  backend : Nat → Except NCBError Nat
  now : Nat
  hasOriginalApi : Bool
  spawnRan : Bool
  compressOk : Bool

/-- The operation handed to `retry_with_backoff` by `synthesize_voicevox`
(`src/tts/tts.rs` lines 110-150): with `original_api_url` the backend
result is passed through with errors re-wrapped as VOICEVOX errors;
without it, `synthesize_stream` is still invoked but every outcome is
mapped to an error ("Stream synthesis not yet fully implemented"). -/
def vvOp (env : SynthEnv) : Nat → Except NCBError Nat := fun i =>
  if env.hasOriginalApi then
    match env.backend i with
    | .ok audio => .ok audio
    | .error _ => .error .VOICEVOX
  else
    match env.backend i with
    | .ok _ => .error .VOICEVOX
    | .error _ => .error .VOICEVOX

/-- The operation handed to `retry_with_backoff` by `synthesize_gcp`
(`src/tts/tts.rs` lines 228-241). -/
def gcpOp (env : SynthEnv) : Nat → Except NCBError Nat := fun i =>
  match env.backend i with
  | .ok audio => .ok audio
  | .error _ => .error .TTSSynthesis

/-- `TTS::synthesize_voicevox` (`src/tts/tts.rs` lines 78-185).  Returns
the call result, the updated `TTS` state, and the number of backend
invocations performed (0 on a cache hit or an open breaker).  On success
the audio goes into the cache only when the spawned compress-and-cache
task ran and succeeded. -/
def TTS.synthesize_voicevox (env : SynthEnv) (tts : TTS) (text : RStr) (speaker : Int) :
    Except NCBError Nat × TTS × Nat :=
  let cache_key := CacheKey.Voicevox text speaker
  match tts.cache.get cache_key with
  | (some audio, cache') => (.ok audio, { tts with cache := cache' }, 0)
  | (none, _) =>
      let cb := tts.voicevox_circuit_breaker.try_half_open env.now
      if ¬ cb.can_execute env.now then
        (.error .VOICEVOX, { tts with voicevox_circuit_breaker := cb }, 0)
      else
        match retry_with_backoff (vvOp env) 3 500 with
        | (.ok audio, n) =>
            (.ok audio,
              { cache := if env.spawnRan && env.compressOk
                    then tts.cache.put cache_key audio else tts.cache,
                voicevox_circuit_breaker := cb.on_success,
                gcp_circuit_breaker := tts.gcp_circuit_breaker }, n)
        | (.error e, n) =>
            (.error e, { tts with voicevox_circuit_breaker := cb.on_failure env.now }, n)

/-- `TTS::synthesize_gcp` (`src/tts/tts.rs` lines 187-292): as above, but
the compression is synchronous - a compression failure fails the call,
and on success the cache insertion happens before the return. -/
def TTS.synthesize_gcp (env : SynthEnv) (tts : TTS) (req : SynthesizeRequest) :
    Except NCBError Nat × TTS × Nat :=
  let cache_key := CacheKey.GCP req.input req.voice
  match tts.cache.get cache_key with
  | (some audio, cache') => (.ok audio, { tts with cache := cache' }, 0)
  | (none, _) =>
      let cb := tts.gcp_circuit_breaker.try_half_open env.now
      if ¬ cb.can_execute env.now then
        (.error .TTSSynthesis, { tts with gcp_circuit_breaker := cb }, 0)
      else
        match retry_with_backoff (gcpOp env) 3 500 with
        | (.error e, n) =>
            (.error e, { tts with gcp_circuit_breaker := cb.on_failure env.now }, n)
        | (.ok audio, n) =>
            if env.compressOk then
              (.ok audio,
                { cache := tts.cache.put cache_key audio,
                  voicevox_circuit_breaker := tts.voicevox_circuit_breaker,
                  gcp_circuit_breaker := cb.on_success }, n)
            else
              (.error .TTSSynthesis, { tts with gcp_circuit_breaker := cb.on_success }, n)

lemma Lru.get_put_self {κ ν : Type} [DecidableEq κ] (c : Lru κ ν) (k : κ) (v : ν)
    (hcap : 1 ≤ c.cap) : ((c.put k v).get k).1 = some v := by
  unfold put get
  cases hc : c.cap with
  | zero => omega
  | succ m => simp [List.take_succ_cons, List.find?]

lemma Lru.get_fst_some_again {κ ν : Type} [DecidableEq κ] (c : Lru κ ν) (k : κ) (v : ν)
    (h : (c.get k).1 = some v) : (((c.get k).2).get k).1 = some v := by
  unfold get at h ⊢
  cases hf : c.entries.find? (fun e => decide (e.1 = k)) with
  | none => rw [hf] at h; simp at h
  | some e =>
      rw [hf] at h
      simp at h
      have hkey := List.find?_some hf
      simp at hkey
      simp [List.find?, hkey, h]

lemma Lru.cap_put {κ ν : Type} [DecidableEq κ] (c : Lru κ ν) (k : κ) (v : ν) :
    (c.put k v).cap = c.cap := rfl

lemma Lru.cap_get {κ ν : Type} [DecidableEq κ] (c : Lru κ ν) (k : κ) :
    ((c.get k).2).cap = c.cap := by
  unfold get
  cases hf : c.entries.find? (fun e => decide (e.1 = k)) <;> rfl

lemma retry_const_ok {E T : Type} (op : Nat → Except E T) (a : T) (m d : Nat)
    (hop : op 1 = .ok a) : retry_with_backoff op m d = (.ok a, 1) := by
  unfold retry_with_backoff retryLoop
  dsimp only
  simp only [Nat.zero_add]
  rw [hop]

lemma TTS.synthesize_voicevox_hit (env : SynthEnv) (tts : TTS) (text : RStr)
    (speaker : Int) (audio : Nat) (c' : Lru CacheKey Nat)
    (h : tts.cache.get (CacheKey.Voicevox text speaker) = (some audio, c')) :
    TTS.synthesize_voicevox env tts text speaker =
      (.ok audio, { tts with cache := c' }, 0) := by
  unfold TTS.synthesize_voicevox
  dsimp only
  rw [h]

lemma TTS.synthesize_voicevox_miss_ok (env : SynthEnv) (tts : TTS) (text : RStr)
    (speaker : Int) (audio n : Nat)
    (hm : (tts.cache.get (CacheKey.Voicevox text speaker)).1 = none)
    (hcb : (tts.voicevox_circuit_breaker.try_half_open env.now).can_execute env.now = true)
    (hr : retry_with_backoff (vvOp env) 3 500 = (.ok audio, n)) :
    TTS.synthesize_voicevox env tts text speaker =
      (.ok audio,
        { cache := if env.spawnRan && env.compressOk
              then tts.cache.put (CacheKey.Voicevox text speaker) audio else tts.cache,
          voicevox_circuit_breaker :=
            (tts.voicevox_circuit_breaker.try_half_open env.now).on_success,
          gcp_circuit_breaker := tts.gcp_circuit_breaker }, n) := by
  unfold TTS.synthesize_voicevox
  dsimp only
  have hpair : tts.cache.get (CacheKey.Voicevox text speaker) =
      (none, (tts.cache.get (CacheKey.Voicevox text speaker)).2) := by
    rw [← hm]
  rw [hpair, if_neg (by simp [hcb]), hr]

lemma TTS.synthesize_gcp_hit (env : SynthEnv) (tts : TTS) (req : SynthesizeRequest)
    (audio : Nat) (c' : Lru CacheKey Nat)
    (h : tts.cache.get (CacheKey.GCP req.input req.voice) = (some audio, c')) :
    TTS.synthesize_gcp env tts req = (.ok audio, { tts with cache := c' }, 0) := by
  unfold TTS.synthesize_gcp
  dsimp only
  rw [h]

/-- Environment for the C4 counterexample: the backend always succeeds,
the spawned caching task runs, but its `Compressed::new` fails. -/
def envC4 : SynthEnv := ⟨fun _ => .ok 7, 0, true, true, false⟩

/-- C4 counterexample: two sequential `synthesize_voicevox` calls with an
identical cache key, the first succeeding - yet the second call invokes
the backend network capability once (not zero times), because the
first call's caching happens in a spawned compress-and-cache task whose
compression failed, leaving the cache without the entry. -/
theorem C4_counterexample :
    (TTS.synthesize_voicevox envC4 TTS.fresh "hi".toList 1).1 = .ok 7 ∧
    (TTS.synthesize_voicevox envC4
        (TTS.synthesize_voicevox envC4 TTS.fresh "hi".toList 1).2.1
        "hi".toList 1).2.2 = 1 := by
  have hr : retry_with_backoff (vvOp envC4) 3 500 = (.ok 7, 1) :=
    retry_const_ok (vvOp envC4) 7 3 500 rfl
  have h1 := TTS.synthesize_voicevox_miss_ok envC4 TTS.fresh "hi".toList 1 7 1 rfl rfl hr
  have h2 := TTS.synthesize_voicevox_miss_ok envC4
    { cache := if envC4.spawnRan && envC4.compressOk
          then TTS.fresh.cache.put (CacheKey.Voicevox "hi".toList 1) 7 else TTS.fresh.cache,
      voicevox_circuit_breaker :=
        (TTS.fresh.voicevox_circuit_breaker.try_half_open envC4.now).on_success,
      gcp_circuit_breaker := TTS.fresh.gcp_circuit_breaker }
    "hi".toList 1 7 1 rfl rfl hr
  refine ⟨by rw [h1], ?_⟩
  rw [h1]
  dsimp only
  rw [h2]

/-- C4 (amended): for two sequential calls with an identical cache key
where the first call succeeds, the second call returns a playable audio
handle without invoking the backend network capability - unconditionally
for `synthesize_gcp`, which caches synchronously before returning; for
`synthesize_voicevox` provided its spawned compress-and-cache task ran
and succeeded before the second call (that caching is fire-and-forget:
when it is delayed or its compression fails, the entry is absent and the
second call hits the backend again, as `C4_counterexample` shows). -/
theorem C4_synthesis_cache_hit (env₁ env₂ : SynthEnv) (tts : TTS)
    (hcap : 1 ≤ tts.cache.cap) (text : RStr) (speaker : Int) (req : SynthesizeRequest) :
    (∀ a st' n, TTS.synthesize_voicevox env₁ tts text speaker = (.ok a, st', n) →
      env₁.spawnRan = true → env₁.compressOk = true →
      ∃ st'', TTS.synthesize_voicevox env₂ st' text speaker = (.ok a, st'', 0)) ∧
    (∀ a st' n, TTS.synthesize_gcp env₁ tts req = (.ok a, st', n) →
      ∃ st'', TTS.synthesize_gcp env₂ st' req = (.ok a, st'', 0)) := by
  constructor
  · intro a st' n h hsp hco
    have hkey : ((st'.cache).get (CacheKey.Voicevox text speaker)).1 = some a := by
      cases hg : tts.cache.get (CacheKey.Voicevox text speaker) with
      | mk o c' =>
        cases o with
        | some audio =>
            rw [TTS.synthesize_voicevox_hit env₁ tts text speaker audio c' hg] at h
            simp at h
            obtain ⟨ha, hst, -⟩ := h
            rw [← hst]
            have := Lru.get_fst_some_again tts.cache (CacheKey.Voicevox text speaker) audio
              (by rw [hg])
            rw [hg] at this
            simp at this ⊢
            rw [this, ha]
        | none =>
            unfold TTS.synthesize_voicevox at h
            dsimp only at h
            rw [hg] at h
            by_cases hcb : (tts.voicevox_circuit_breaker.try_half_open env₁.now
                ).can_execute env₁.now = true
            · rw [if_neg (by simp [hcb])] at h
              cases hrr : retry_with_backoff (vvOp env₁) 3 500 with
              | mk r n' =>
                rw [hrr] at h
                cases r with
                | error e => simp at h
                | ok audio =>
                    simp at h
                    obtain ⟨ha, hst, -⟩ := h
                    rw [← hst]
                    simp only [hsp, hco, Bool.and_self, if_pos]
                    simp
                    rw [Lru.get_put_self tts.cache (CacheKey.Voicevox text speaker) audio hcap, ha]
            · rw [if_pos (by simp [hcb])] at h
              simp at h
    have hpair : (st'.cache).get (CacheKey.Voicevox text speaker) =
        (some a, ((st'.cache).get (CacheKey.Voicevox text speaker)).2) := by
      rw [← hkey]
    exact ⟨_, TTS.synthesize_voicevox_hit env₂ st' text speaker a _ hpair⟩
  · intro a st' n h
    have hkey : ((st'.cache).get (CacheKey.GCP req.input req.voice)).1 = some a := by
      cases hg : tts.cache.get (CacheKey.GCP req.input req.voice) with
      | mk o c' =>
        cases o with
        | some audio =>
            rw [TTS.synthesize_gcp_hit env₁ tts req audio c' hg] at h
            simp at h
            obtain ⟨ha, hst, -⟩ := h
            rw [← hst]
            have := Lru.get_fst_some_again tts.cache (CacheKey.GCP req.input req.voice) audio
              (by rw [hg])
            rw [hg] at this
            simp at this ⊢
            rw [this, ha]
        | none =>
            unfold TTS.synthesize_gcp at h
            dsimp only at h
            rw [hg] at h
            by_cases hcb : (tts.gcp_circuit_breaker.try_half_open env₁.now
                ).can_execute env₁.now = true
            · rw [if_neg (by simp [hcb])] at h
              cases hrr : retry_with_backoff (gcpOp env₁) 3 500 with
              | mk r n' =>
                rw [hrr] at h
                cases r with
                | error e => simp at h
                | ok audio =>
                    by_cases hcomp : env₁.compressOk = true
                    · simp [hcomp] at h
                      obtain ⟨ha, hst, -⟩ := h
                      rw [← hst]
                      simp
                      rw [Lru.get_put_self tts.cache (CacheKey.GCP req.input req.voice) audio hcap, ha]
                    · simp [hcomp] at h
            · rw [if_pos (by simp [hcb])] at h
              simp at h
    have hpair : (st'.cache).get (CacheKey.GCP req.input req.voice) =
        (some a, ((st'.cache).get (CacheKey.GCP req.input req.voice)).2) := by
      rw [← hkey]
    exact ⟨_, TTS.synthesize_gcp_hit env₂ st' req a _ hpair⟩

/-- Witness for `C4_synthesis_cache_hit`: a successful voicevox call with
the spawned caching completed, followed by a backend-free second call. -/
theorem C4_synthesis_cache_hit_witness :
    ∃ st'', TTS.synthesize_voicevox ⟨fun _ => .error .VOICEVOX, 9, true, false, false⟩
      (TTS.synthesize_voicevox ⟨fun _ => .ok 7, 0, true, true, true⟩
        TTS.fresh "hi".toList 1).2.1 "hi".toList 1 = (.ok 7, st'', 0) := by
  have hr : retry_with_backoff (vvOp ⟨fun _ => .ok 7, 0, true, true, true⟩) 3 500 =
      (.ok 7, 1) := retry_const_ok _ 7 3 500 rfl
  have h1 := TTS.synthesize_voicevox_miss_ok ⟨fun _ => .ok 7, 0, true, true, true⟩
    TTS.fresh "hi".toList 1 7 1 rfl rfl hr
  have hproj : TTS.synthesize_voicevox ⟨fun _ => .ok 7, 0, true, true, true⟩
      TTS.fresh "hi".toList 1 =
      (.ok 7, (TTS.synthesize_voicevox ⟨fun _ => .ok 7, 0, true, true, true⟩
        TTS.fresh "hi".toList 1).2.1, 1) := by
    rw [h1]
  exact (C4_synthesis_cache_hit ⟨fun _ => .ok 7, 0, true, true, true⟩
    ⟨fun _ => .error .VOICEVOX, 9, true, false, false⟩ TTS.fresh (by decide)
    "hi".toList 1 ⟨⟨none, none⟩, ⟨[], [], []⟩, ⟨[]⟩⟩).1 7 _ 1 hproj rfl rfl

/-! ### `TTSInstance::reconnect` (C5, `src/tts/instance.rs` lines 89-154). -/

/-- Voice-transport actions performed by `reconnect`. -/
inductive VoiceAction where
  | join
  | leave
deriving DecidableEq, Repr

/-- The error outcomes of `reconnect` (boxed dynamic errors in the
source, distinguished here by provenance): the missing songbird manager,
a propagated `manager.join` transport error, and "No users in voice
channel after reconnection". -/
inductive ReconnectError where
  | ManagerUnavailable
  | JoinFailed
  | EmptyChannel
deriving DecidableEq, Repr

/-- The external observations `reconnect` makes, as data: the songbird
manager lookup, `check_connection`, the `manager.join` outcome, the
`guild.channels` fetch, whether the bound voice channel is in the result,
and the `channel.members` query - a list of `member.user.bot` flags. -/
structure ReconnectEnv where
  manager_available : Bool
  connected : Bool
  join_ok : Bool
  channels_ok : Bool
  channel_found : Bool
  members_result : Except Unit (List Bool)

/-- `TTSInstance::reconnect` (`src/tts/instance.rs` lines 89-154).  The
`skip_check` parameter is bound but never read by the body: the occupancy
double-check after a successful join runs unconditionally.  The instance
only feeds the guild/channel ids into the observations collected in
`env`.  Returns the result together with the trace of voice-transport
actions (`manager.join`, `manager.remove`). -/
def TTSInstanceM.reconnect (_inst : TTSInstanceM) (env : ReconnectEnv)
    (skip_check : Bool) : Except ReconnectError Unit × List VoiceAction :=
  if ¬ env.manager_available then (.error .ManagerUnavailable, [])
  else if env.connected then (.ok (), [])
  else if ¬ env.join_ok then (.error .JoinFailed, [.join])
  else if env.channels_ok then
    if env.channel_found then
      match env.members_result with
      | .ok bots =>
          let user_count := (bots.filter (fun b => !b)).length
          if user_count = 0 then (.error .EmptyChannel, [.join, .leave])
          else (.ok (), [.join])
      | .error _ => (.ok (), [.join])
    else (.ok (), [.join])
  else (.ok (), [.join])

/-- C5 counterexample environment: not connected, join succeeds, the
bound voice channel exists and its only occupant is a bot. -/
def envC5 : ReconnectEnv := ⟨true, false, true, true, true, .ok [true]⟩

/-- The instance used in the concrete reconnect scenarios. -/
def instC5 : TTSInstanceM := ⟨none, [1], 2, 3⟩

/-- C5 counterexample: `reconnect(ctx, skip_empty_check = true)` with a
successful join into a bot-only channel does NOT return success while
skipping the occupancy check, as the claim states - the dead `skip_check`
parameter is ignored, the check runs, the bot leaves again and the call
returns the empty-channel error. -/
theorem C5_counterexample :
    (instC5.reconnect envC5 true).1 = .error .EmptyChannel ∧
    (instC5.reconnect envC5 true).2 = [.join, .leave] := ⟨rfl, rfl⟩

/-- C5 (amended): `reconnect` ignores `skip_empty_check` entirely (both
flag values behave identically), and on every successful join it performs
the non-bot-occupancy check: when the channel has no non-bot member it
immediately leaves again and returns the empty-channel error; when a
non-bot member is present it returns success; when the channel list or
the member query fails, or the channel is gone, the check is abandoned
with a warning and the call still returns success. -/
theorem C5_reconnect_ignores_skip (inst : TTSInstanceM) (env : ReconnectEnv) :
    (∀ s₁ s₂ : Bool, inst.reconnect env s₁ = inst.reconnect env s₂) ∧
    (env.manager_available = true → env.connected = false → env.join_ok = true →
      (∀ bots, env.channels_ok = true → env.channel_found = true →
        env.members_result = .ok bots →
        ((bots.any (fun b => !b) = false →
            inst.reconnect env true = (.error .EmptyChannel, [.join, .leave])) ∧
          (bots.any (fun b => !b) = true →
            inst.reconnect env true = (.ok (), [.join])))) ∧
      ((env.channels_ok = false ∨ env.channel_found = false ∨
          env.members_result = .error ()) →
        inst.reconnect env true = (.ok (), [.join]))) := by
  refine ⟨fun s₁ s₂ => rfl, fun hm hc hj => ⟨?_, ?_⟩⟩
  · intro bots hok hfound hmem
    constructor
    · intro hnone
      unfold TTSInstanceM.reconnect
      rw [if_neg (by simp [hm]), if_neg (by simp [hc]), if_neg (by simp [hj]),
        if_pos hok, if_pos hfound, hmem]
      have hlen : (bots.filter (fun b => !b)).length = 0 := by
        rw [List.length_eq_zero, List.filter_eq_nil]
        intro b hb
        have := List.any_eq_false.mp hnone b hb
        simpa using this
      simp [hlen]
    · intro hsome
      unfold TTSInstanceM.reconnect
      rw [if_neg (by simp [hm]), if_neg (by simp [hc]), if_neg (by simp [hj]),
        if_pos hok, if_pos hfound, hmem]
      obtain ⟨b, hb, hnb⟩ := List.any_eq_true.mp hsome
      have hmemf : b ∈ bots.filter (fun x => !x) := List.mem_filter.mpr ⟨hb, hnb⟩
      have hlen : (bots.filter (fun b => !b)).length ≠ 0 := by
        have := List.length_pos.mpr (List.ne_nil_of_mem hmemf)
        omega
      simp [hlen]
  · intro hfail
    unfold TTSInstanceM.reconnect
    rw [if_neg (by simp [hm]), if_neg (by simp [hc]), if_neg (by simp [hj])]
    rcases hfail with hck | hcf | hme
    · rw [if_neg (by simp [hck])]
    · by_cases hok : env.channels_ok = true
      · rw [if_pos hok, if_neg (by simp [hcf])]
      · rw [if_neg hok]
    · by_cases hok : env.channels_ok = true
      · rw [if_pos hok]
        by_cases hfound : env.channel_found = true
        · rw [if_pos hfound, hme]
        · rw [if_neg hfound]
      · rw [if_neg hok]

/-- Witness for `C5_reconnect_ignores_skip`: the flag has no effect at a
concrete environment, and a join into a channel with one human succeeds. -/
theorem C5_reconnect_ignores_skip_witness :
    instC5.reconnect envC5 true = instC5.reconnect envC5 false ∧
    instC5.reconnect ⟨true, false, true, true, true, .ok [false]⟩ true
      = (.ok (), [.join]) := by
  refine ⟨(C5_reconnect_ignores_skip instC5 envC5).1 true false, ?_⟩
  exact (((C5_reconnect_ignores_skip instC5
      ⟨true, false, true, true, true, .ok [false]⟩).2 rfl rfl rfl).1
    [false] rfl rfl rfl).2 (by decide)

/-! ### The Connection Monitor tick (C9, `src/connection_monitor.rs`). -/

/-- Per-guild observations during one Connection-Monitor tick: the
songbird manager lookup at that iteration (line 98), the
current-connection check (lines 102-111), the
`check_voice_channel_users` outcome (lines 234-272; `.error` for a
channels/members fetch failure, `.ok has_users` otherwise - a missing
channel reports `.ok false`), and the `reconnect` outcome (line 157). -/
structure GuildAudit where
  manager_available : Bool
  is_connected : Bool
  users_check : Except Unit Bool
  reconnect_ok : Bool

/-- `ConnectionMonitorError` (`src/connection_monitor.rs` lines 17-27),
restricted to the variant the audited loop raises. -/
inductive ConnectionMonitorError where
  | SongbirdManagerNotFound
deriving DecidableEq, Repr

/-- `MAX_RECONNECTION_ATTEMPTS` (`src/connection_monitor.rs` line 13). -/
def MAX_RECONNECTION_ATTEMPTS : Nat := 3

/-- `self.reconnection_attempts.get(g).copied().unwrap_or(0)`. -/
def attemptsGet (m : List (Nat × Nat)) (g : Nat) : Nat :=
  ((m.find? (fun e => decide (e.1 = g))).map Prod.snd).getD 0

/-- `self.reconnection_attempts.remove(g)`. -/
def attemptsRemove (m : List (Nat × Nat)) (g : Nat) : List (Nat × Nat) :=
  m.filter (fun e => decide (e.1 ≠ g))

/-- `self.reconnection_attempts.insert(g, v)`. -/
def attemptsInsert (m : List (Nat × Nat)) (g : Nat) (v : Nat) : List (Nat × Nat) :=
  (g, v) :: attemptsRemove m g

/-- The per-guild audit loop of `ConnectionMonitor::check_connections`
(`src/connection_monitor.rs` lines 96-209).  The `?` on the songbird
manager lookup (line 100) propagates as an `Except.error` that aborts the
remaining iterations and the eviction sweep.  `audit` maps each guild id
to that tick's observations; a `users_check` failure is mapped to "no
users, skip reconnection" locally (lines 117-123).  Returns the audited
guild ids in order, the updated attempts map, and the `guilds_to_remove`
list feeding the eviction sweep. -/
def checkConnectionsLoop (audit : Nat → GuildAudit) :
    List (Nat × TTSInstanceM) → List (Nat × Nat) → List Nat → List Nat →
    Except ConnectionMonitorError (List Nat × List (Nat × Nat) × List Nat)
  | [], attempts, audited, to_remove => .ok (audited.reverse, attempts, to_remove.reverse)
  | (g, _inst) :: rest, attempts, audited, to_remove =>
      let a := audit g
      if ¬ a.manager_available then .error .SongbirdManagerNotFound
      else if a.is_connected then
        checkConnectionsLoop audit rest attempts (g :: audited) to_remove
      else
        let should_reconnect :=
          match a.users_check with
          | .ok has_users => has_users
          | .error _ => false
        if should_reconnect then
          let n := attemptsGet attempts g
          if MAX_RECONNECTION_ATTEMPTS ≤ n then
            checkConnectionsLoop audit rest (attemptsRemove attempts g)
              (g :: audited) (g :: to_remove)
          else if a.reconnect_ok then
            checkConnectionsLoop audit rest (attemptsRemove attempts g)
              (g :: audited) to_remove
          else if MAX_RECONNECTION_ATTEMPTS ≤ n + 1 then
            checkConnectionsLoop audit rest
              (attemptsRemove (attemptsInsert attempts g (n + 1)) g)
              (g :: audited) (g :: to_remove)
          else
            checkConnectionsLoop audit rest (attemptsInsert attempts g (n + 1))
              (g :: audited) to_remove
        else
          checkConnectionsLoop audit rest (attemptsRemove attempts g)
            (g :: audited) (g :: to_remove)

/-- Audit environment for the C9 counterexample: `songbird::get` returns
`None` - the manager is unavailable. -/
def auditC9 : Nat → GuildAudit := fun _ => ⟨false, false, .ok true, true⟩

/-- C9 counterexample: with the songbird manager unavailable, the first
guild's audit failure aborts the whole tick with
`SongbirdManagerNotFound` - the second guild in the Registry is never
audited and no local handling occurs, refuting "a failure while auditing
one guild never aborts the audit of the remaining guilds". -/
theorem C9_counterexample :
    checkConnectionsLoop auditC9 [(1, instC5), (2, instC5)] [] [] [] =
      .error .SongbirdManagerNotFound := rfl

lemma checkConnectionsLoop_ok (audit : Nat → GuildAudit) :
    ∀ (guilds : List (Nat × TTSInstanceM)) (attempts : List (Nat × Nat))
      (audited to_remove : List Nat),
      (∀ e ∈ guilds, (audit e.1).manager_available = true) →
      ∃ attempts' to_remove',
        checkConnectionsLoop audit guilds attempts audited to_remove =
          .ok (audited.reverse ++ guilds.map Prod.fst, attempts', to_remove') := by
  intro guilds
  induction guilds with
  | nil =>
      intro attempts audited to_remove _
      exact ⟨attempts, to_remove.reverse, by simp [checkConnectionsLoop]⟩
  | cons e rest ih =>
      intro attempts audited to_remove hman
      obtain ⟨g, inst⟩ := e
      have hg : (audit g).manager_available = true := hman (g, inst) (by simp)
      have hrest : ∀ e ∈ rest, (audit e.1).manager_available = true :=
        fun e he => hman e (by simp [he])
      unfold checkConnectionsLoop
      rw [if_neg (by simp [hg])]
      dsimp only
      have hacc : ∀ (att : List (Nat × Nat)) (rem : List Nat),
          ∃ attempts' to_remove',
            checkConnectionsLoop audit rest att (g :: audited) rem =
              .ok (audited.reverse ++ g :: rest.map Prod.fst, attempts', to_remove') := by
        intro att rem
        obtain ⟨a', r', h⟩ := ih att (g :: audited) rem hrest
        refine ⟨a', r', ?_⟩
        rw [h]
        simp
      by_cases hconn : (audit g).is_connected = true
      · rw [if_pos hconn]
        simpa using hacc attempts to_remove
      · rw [if_neg hconn]
        split
        · split
          · simpa using hacc (attemptsRemove attempts g) (g :: to_remove)
          · split
            · simpa using hacc (attemptsRemove attempts g) to_remove
            · split
              · simpa using hacc
                  (attemptsRemove (attemptsInsert attempts g (attemptsGet attempts g + 1)) g)
                  (g :: to_remove)
              · simpa using hacc (attemptsInsert attempts g (attemptsGet attempts g + 1))
                  to_remove
        · simpa using hacc (attemptsRemove attempts g) (g :: to_remove)

/-- C9 (amended): within one tick, per-guild failures of the occupancy
check (fetch errors are mapped locally to "no users, skip reconnection")
and of `reconnect` never abort the audit of the remaining guilds:
whenever the songbird manager is available at every iteration, every
guild present in the Registry at the start of the tick is audited, in
Registry order, and the loop returns `ok`.  A missing songbird manager,
however, aborts the entire tick via `?` (line 100), including the
eviction sweep - see `C9_counterexample`. -/
theorem C9_audit_isolation (audit : Nat → GuildAudit)
    (guilds : List (Nat × TTSInstanceM)) (attempts : List (Nat × Nat))
    (hman : ∀ e ∈ guilds, (audit e.1).manager_available = true) :
    ∃ attempts' to_remove',
      checkConnectionsLoop audit guilds attempts [] [] =
        .ok (guilds.map Prod.fst, attempts', to_remove') := by
  simpa using checkConnectionsLoop_ok audit guilds attempts [] [] hman

/-- Witness for `C9_audit_isolation`: one guild whose occupancy check
errors and one whose reconnect fails are both audited in one tick. -/
theorem C9_audit_isolation_witness :
    ∃ attempts' to_remove',
      checkConnectionsLoop
        (fun g => if g = 1 then ⟨true, false, .error (), true⟩
          else ⟨true, false, .ok true, false⟩)
        [(1, instC5), (2, instC5)] [] [] [] = .ok ([1, 2], attempts', to_remove') := by
  have h := C9_audit_isolation
    (fun g => if g = 1 then ⟨true, false, .error (), true⟩
      else ⟨true, false, .ok true, false⟩)
    [(1, instC5), (2, instC5)] []
    (by intro e he
        simp at he
        rcases he with rfl | rfl <;> rfl)
  simpa using h

/-! ### Registry/persistence pairing (C1; `src/commands/setup.rs`,
`src/commands/stop.rs`, `src/connection_monitor.rs` lines 211-228,
`src/database/database.rs` lines 190-232). -/

/-- The in-memory Session Registry (`TTSData`:
`Arc<RwLock<HashMap<GuildId, TTSInstance>>>`, `src/data.rs` lines 15-19)
paired with the persisted "active instances" Redis set
(`TTS_INSTANCES_LIST_KEY`; the per-guild blob keys track the set and do
not bear on the membership claim). -/
structure SysState where
  registry : List (Nat × TTSInstanceM)
  instances_set : List Nat
deriving DecidableEq, Repr

/-- `HashMap::contains_key` on the registry. -/
def registryContains (st : SysState) (g : Nat) : Bool :=
  st.registry.any (fun e => decide (e.1 = g))

/-- Redis `SADD` (`save_tts_instance`, `src/database/database.rs`
line 205). -/
def sadd (l : List Nat) (g : Nat) : List Nat := if g ∈ l then l else g :: l

/-- Redis `SREM` (`remove_tts_instance`, `src/database/database.rs`
line 229). -/
def srem (l : List Nat) (g : Nat) : List Nat := l.filter (fun x => decide (x ≠ g))

/-- `setup_command` (`src/commands/setup.rs` lines 16-186) as it acts on
the registry/persistence pair: under the storage write-lock it rejects a
duplicate guild (lines 72-82), otherwise inserts the fresh instance into
the registry (line 122) and saves it durably (`save_tts_instance`,
line 132).  `guard_passed` abstracts the earlier guard returns (no guild
id, user not in a voice channel) that mutate nothing; the persistence
write is taken to succeed, per the claim's restriction to successful
operations (a failure is only logged, lines 132-134). -/
def setup_command (st : SysState) (g : Nat) (inst : TTSInstanceM)
    (guard_passed : Bool) : SysState :=
  if ¬ guard_passed then st
  else if registryContains st g then st
  else { registry := (g, inst) :: st.registry
         instances_set := sadd st.instances_set g }

/-- `stop_command` (`src/commands/stop.rs` lines 11-115): under the
write-lock it rejects a guild with no session (lines 67-79), otherwise
removes the registry entry (line 82) and the durable record
(`remove_tts_instance`, line 92); guards and persistence as in
`setup_command`. -/
def stop_command (st : SysState) (g : Nat) (guard_passed : Bool) : SysState :=
  if ¬ guard_passed then st
  else if ¬ registryContains st g then st
  else { registry := st.registry.filter (fun e => decide (e.1 ≠ g))
         instances_set := srem st.instances_set g }

/-- The eviction sweep of `ConnectionMonitor::check_connections`
(`src/connection_monitor.rs` lines 211-228): every marked guild is
removed from the registry and from durable storage. -/
def evictGuilds (st : SysState) (gs : List Nat) : SysState :=
  gs.foldl (fun s g =>
    { registry := s.registry.filter (fun e => decide (e.1 ≠ g))
      instances_set := srem s.instances_set g }) st

/-- The operations the C1 claim quantifies over. -/
inductive RegOp where
  | setup (g : Nat) (inst : TTSInstanceM) (guard_passed : Bool)
  | stop (g : Nat) (guard_passed : Bool)
  | evict (gs : List Nat)

/-- Dispatch one operation. -/
def applyOp (st : SysState) : RegOp → SysState
  | .setup g inst gp => setup_command st g inst gp
  | .stop g gp => stop_command st g gp
  | .evict gs => evictGuilds st gs

/-- Run a sequence of operations. -/
def applyOps (st : SysState) (ops : List RegOp) : SysState := ops.foldl applyOp st

/-- The C1 durability invariant: a guild is in the Registry iff it is in
the persisted active-instances set. -/
def RegistryPersistInv (st : SysState) : Prop :=
  ∀ g, registryContains st g = true ↔ g ∈ st.instances_set

lemma mem_sadd (l : List Nat) (g g' : Nat) : g' ∈ sadd l g ↔ (g' = g ∨ g' ∈ l) := by
  unfold sadd
  split
  · constructor
    · exact fun h => Or.inr h
    · rintro (rfl | h)
      · assumption
      · exact h
  · simp [eq_comm]

lemma mem_srem (l : List Nat) (g g' : Nat) : g' ∈ srem l g ↔ (g' ∈ l ∧ g' ≠ g) := by
  simp [srem]

lemma setup_command_inv (st : SysState) (g : Nat) (inst : TTSInstanceM)
    (gp : Bool) (h : RegistryPersistInv st) :
    RegistryPersistInv (setup_command st g inst gp) := by
  unfold setup_command
  split
  · exact h
  split
  · exact h
  intro g'
  have hg' := h g'
  simp only [registryContains] at hg' ⊢
  rw [List.any_cons, Bool.or_eq_true, mem_sadd]
  rcases Decidable.em (g = g') with rfl | hne
  · simp
  · simp only [decide_eq_true_eq]
    constructor
    · rintro (h1 | h1)
      · exact absurd h1 hne
      · exact Or.inr (hg'.mp h1)
    · rintro (h1 | h1)
      · exact absurd h1.symm hne
      · exact Or.inr (hg'.mpr h1)

lemma remove_pair_inv (st : SysState) (g : Nat) (h : RegistryPersistInv st) :
    RegistryPersistInv
      { registry := st.registry.filter (fun e => decide (e.1 ≠ g))
        instances_set := srem st.instances_set g } := by
  intro g'
  have hg' := h g'
  simp only [registryContains] at hg' ⊢
  rw [mem_srem]
  constructor
  · intro h1
    obtain ⟨e, he, hp⟩ := List.any_eq_true.mp h1
    obtain ⟨hmem, hneq⟩ := List.mem_filter.mp he
    have h1' : e.1 = g' := of_decide_eq_true hp
    have hne : e.1 ≠ g := of_decide_eq_true hneq
    refine ⟨hg'.mp (List.any_eq_true.mpr ⟨e, hmem, hp⟩), ?_⟩
    rw [← h1']
    exact hne
  · rintro ⟨h1, hne⟩
    obtain ⟨e, he, hp⟩ := List.any_eq_true.mp (hg'.mpr h1)
    have h1' : e.1 = g' := of_decide_eq_true hp
    exact List.any_eq_true.mpr ⟨e, List.mem_filter.mpr ⟨he, by simp [h1', hne]⟩, hp⟩

lemma stop_command_inv (st : SysState) (g : Nat) (gp : Bool)
    (h : RegistryPersistInv st) : RegistryPersistInv (stop_command st g gp) := by
  unfold stop_command
  split
  · exact h
  split
  · exact h
  exact remove_pair_inv st g h

lemma evictGuilds_inv (gs : List Nat) : ∀ (st : SysState),
    RegistryPersistInv st → RegistryPersistInv (evictGuilds st gs) := by
  induction gs with
  | nil => exact fun st h => h
  | cons g gs ih => exact fun st h => ih _ (remove_pair_inv st g h)

/-- C1: starting from any state satisfying the durability invariant (in
particular the empty state at process start), any sequence of successful
setup, stop, and Connection-Monitor-eviction operations preserves it:
for every guild id, the Registry has an entry iff the persisted
active-instances set contains that id. -/
theorem C1_registry_persistence (st : SysState) (h : RegistryPersistInv st)
    (ops : List RegOp) : RegistryPersistInv (applyOps st ops) := by
  induction ops generalizing st with
  | nil => exact h
  | cons op ops ih =>
      refine ih (applyOp st op) ?_
      cases op with
      | setup g inst gp => exact setup_command_inv st g inst gp h
      | stop g gp => exact stop_command_inv st g gp h
      | evict gs => exact evictGuilds_inv gs st h

/-- Witness for `C1_registry_persistence`: from the empty state, setup of
guilds 1 and 2, a stop of 1 and an eviction of 2 keep Registry and
persisted set in lockstep. -/
theorem C1_registry_persistence_witness :
    RegistryPersistInv (applyOps ⟨[], []⟩
      [.setup 1 instC5 true, .setup 2 instC5 true, .stop 1 true, .evict [2]]) :=
  C1_registry_persistence ⟨[], []⟩
    (fun g => by simp [registryContains]) _

end NCB
